import Mathlib

/-!
Verification of the Black-Scholes pricing engine (src/black_scholes.py).

The engine is a stateless library of ten public functions over five real
inputs (S, K, T, r, sigma).  We embed it shallowly:

* real arithmetic models IEEE doubles (exact reals, the spec treats the
  formulas as exact closed forms);
* the signed infinities that `d1` can return (numpy `inf`) are modelled by
  `EReal`; the library CDF and PDF are extended to `EReal` exactly the way
  IEEE evaluation behaves (`norm.cdf(inf) = 1`, `norm.cdf(-inf) = 0`,
  `norm.pdf(+-inf) = 0`);
* a Python `raise ValueError(msg)` is modelled by `Except.error msg`; each
  public function first runs `check_inputs` and only computes its value on
  the `ok` branch, mirroring the call order in the source;
* `scipy.stats.norm.cdf` / `norm.pdf` are the exact standard normal CDF and
  PDF (spec section 4.2: they must match the reference functions).
-/

open MeasureTheory Set

noncomputable section

namespace BlackScholes

/-- Standard normal density, phi in the spec: exp (-x^2/2) / sqrt (2 pi).
This is the exact function that `scipy.stats.norm.pdf` approximates. -/
def normalPDF (x : ℝ) : ℝ := Real.exp (-x ^ 2 / 2) / Real.sqrt (2 * Real.pi)

/-- Standard normal cumulative distribution function, Phi in the spec.
This is the exact function that `scipy.stats.norm.cdf` approximates. -/
def normalCDF (x : ℝ) : ℝ := ∫ t in Iic x, normalPDF t

/-- `norm.cdf` as evaluated on the extended reals produced by `d1`/`d2`:
IEEE gives `norm.cdf(inf) = 1.0` and `norm.cdf(-inf) = 0.0`. -/
def Phi (x : EReal) : ℝ := if x = ⊤ then 1 else if x = ⊥ then 0 else normalCDF x.toReal

/-- `norm.pdf` as evaluated on the extended reals produced by `d1`/`d2`:
IEEE gives `norm.pdf(inf) = 0.0` and `norm.pdf(-inf) = 0.0`. -/
def phi (x : EReal) : ℝ := if x = ⊤ then 0 else if x = ⊥ then 0 else normalPDF x.toReal

/-- `check_inputs` from the source: raises on the first violated constraint,
in the order S, K, T, sigma; `r` is accepted unconditionally. -/
def check_inputs (S K T r sigma : ℝ) : Except String Unit :=
  if S ≤ 0 then Except.error "Asset price must be positive."
  else if K ≤ 0 then Except.error "Strike price must be positive."
  else if T ≤ 0 then Except.error "Time must be positive."
  else if sigma ≤ 0 then Except.error "Volatility must be positive"
  else Except.ok ()

/-- Validate-then-compute: propagate the validation error, otherwise return
the computed value.  Each public function of the source has exactly this
shape (`check_inputs(...)` first, then the formula). -/
def run (c : Except String Unit) (v : ℝ) : Except String ℝ :=
  match c with
  | Except.error e => Except.error e
  | Except.ok _ => Except.ok v

/-- `d1` from the source, valued in `EReal` because the Python code returns
`np.inf` / `-np.inf` in the guarded branches. -/
def d1 (S K T r sigma : ℝ) : EReal :=
  if T ≤ 1e-10 then
    if S > K then ⊤ else if S < K then ⊥ else 0
  else if |sigma * Real.sqrt T| ≤ 1e-10 then
    if S > K then ⊤ else ⊥
  else
    (((Real.log (S / K) + (r + 0.5 * sigma ^ 2) * T) / (sigma * Real.sqrt T) : ℝ) : EReal)

/-- `d2` from the source: `d1 - sigma * sqrt T` (EReal subtraction models the
IEEE rule `inf - finite = inf`). -/
def d2 (S K T r sigma : ℝ) : EReal :=
  d1 S K T r sigma - ((sigma * Real.sqrt T : ℝ) : EReal)

/-- Value computed by `call_price` after validation succeeds. -/
def call_price_val (S K T r sigma : ℝ) : ℝ :=
  if T ≤ 1e-10 then max 0 (S - K)
  else S * Phi (d1 S K T r sigma) - K * Real.exp (-r * T) * Phi (d2 S K T r sigma)

/-- `call_price` from the source: validate, then compute. -/
def call_price (S K T r sigma : ℝ) : Except String ℝ :=
  run (check_inputs S K T r sigma) (call_price_val S K T r sigma)

/-- Value computed by `put_price` after validation succeeds. -/
def put_price_val (S K T r sigma : ℝ) : ℝ :=
  if T ≤ 1e-10 then max 0 (K - S)
  else K * Real.exp (-r * T) * Phi (-(d2 S K T r sigma)) - S * Phi (-(d1 S K T r sigma))

/-- `put_price` from the source: validate, then compute. -/
def put_price (S K T r sigma : ℝ) : Except String ℝ :=
  run (check_inputs S K T r sigma) (put_price_val S K T r sigma)

/-- Value computed by `call_delta` after validation succeeds. -/
def call_delta_val (S K T r sigma : ℝ) : ℝ :=
  if T ≤ 1e-10 then (if S > K then 1 else 0)
  else Phi (d1 S K T r sigma)

/-- `call_delta` from the source: validate, then compute. -/
def call_delta (S K T r sigma : ℝ) : Except String ℝ :=
  run (check_inputs S K T r sigma) (call_delta_val S K T r sigma)

/-- Value computed by `call_theta` after validation succeeds. -/
def call_theta_val (S K T r sigma : ℝ) : ℝ :=
  if T ≤ 1e-10 then 0
  else -(S * phi (d1 S K T r sigma) * sigma) / (2 * Real.sqrt T)
    - r * K * Real.exp (-r * T) * Phi (d2 S K T r sigma)

/-- `call_theta` from the source: validate, then compute. -/
def call_theta (S K T r sigma : ℝ) : Except String ℝ :=
  run (check_inputs S K T r sigma) (call_theta_val S K T r sigma)

/-- Value computed by `call_rho` after validation succeeds. -/
def call_rho_val (S K T r sigma : ℝ) : ℝ :=
  if T ≤ 1e-10 then 0
  else K * T * Real.exp (-r * T) * Phi (d2 S K T r sigma)

/-- `call_rho` from the source: validate, then compute. -/
def call_rho (S K T r sigma : ℝ) : Except String ℝ :=
  run (check_inputs S K T r sigma) (call_rho_val S K T r sigma)

/-- Value computed by `put_delta` after validation succeeds. -/
def put_delta_val (S K T r sigma : ℝ) : ℝ :=
  if T ≤ 1e-10 then (if S < K then -1 else 0)
  else Phi (d1 S K T r sigma) - 1

/-- `put_delta` from the source: validate, then compute. -/
def put_delta (S K T r sigma : ℝ) : Except String ℝ :=
  run (check_inputs S K T r sigma) (put_delta_val S K T r sigma)

/-- Value computed by `put_theta` after validation succeeds. -/
def put_theta_val (S K T r sigma : ℝ) : ℝ :=
  if T ≤ 1e-10 then 0
  else -(S * phi (d1 S K T r sigma) * sigma) / (2 * Real.sqrt T)
    + r * K * Real.exp (-r * T) * Phi (-(d2 S K T r sigma))

/-- `put_theta` from the source: validate, then compute. -/
def put_theta (S K T r sigma : ℝ) : Except String ℝ :=
  run (check_inputs S K T r sigma) (put_theta_val S K T r sigma)

/-- Value computed by `put_rho` after validation succeeds. -/
def put_rho_val (S K T r sigma : ℝ) : ℝ :=
  if T ≤ 1e-10 then 0
  else -K * T * Real.exp (-r * T) * Phi (-(d2 S K T r sigma))

/-- `put_rho` from the source: validate, then compute. -/
def put_rho (S K T r sigma : ℝ) : Except String ℝ :=
  run (check_inputs S K T r sigma) (put_rho_val S K T r sigma)

/-- Value computed by `gamma` after validation succeeds. -/
def gamma_val (S K T r sigma : ℝ) : ℝ :=
  if T ≤ 1e-10 then 0
  else phi (d1 S K T r sigma) / (S * sigma * Real.sqrt T)

/-- `gamma` from the source (shared by call and put): validate, then compute. -/
def gamma (S K T r sigma : ℝ) : Except String ℝ :=
  run (check_inputs S K T r sigma) (gamma_val S K T r sigma)

/-- Value computed by `vega` after validation succeeds. -/
def vega_val (S K T r sigma : ℝ) : ℝ :=
  if T ≤ 1e-10 then 0
  else S * phi (d1 S K T r sigma) * Real.sqrt T

/-- `vega` from the source (shared by call and put): validate, then compute. -/
def vega (S K T r sigma : ℝ) : Except String ℝ :=
  run (check_inputs S K T r sigma) (vega_val S K T r sigma)

/-! ### Facts about the exact normal PDF and CDF -/

lemma sqrt_two_pi_pos : 0 < Real.sqrt (2 * Real.pi) :=
  Real.sqrt_pos.mpr (by positivity)

lemma normalPDF_nonneg (x : ℝ) : 0 ≤ normalPDF x :=
  div_nonneg (Real.exp_nonneg _) (Real.sqrt_nonneg _)

lemma one_le_sqrt_two_pi : (1 : ℝ) ≤ Real.sqrt (2 * Real.pi) := by
  rw [show (1 : ℝ) = Real.sqrt 1 by rw [Real.sqrt_one]]
  exact Real.sqrt_le_sqrt (by nlinarith [Real.pi_gt_three])

lemma normalPDF_le_one (x : ℝ) : normalPDF x ≤ 1 := by
  rw [normalPDF, div_le_one sqrt_two_pi_pos]
  calc Real.exp (-x ^ 2 / 2) ≤ Real.exp 0 :=
        Real.exp_le_exp.mpr (by nlinarith [sq_nonneg x])
    _ = 1 := Real.exp_zero
    _ ≤ Real.sqrt (2 * Real.pi) := one_le_sqrt_two_pi

lemma normalPDF_neg (x : ℝ) : normalPDF (-x) = normalPDF x := by
  rw [normalPDF, normalPDF, neg_sq]

lemma continuous_normalPDF : Continuous normalPDF := by
  unfold normalPDF
  exact (Real.continuous_exp.comp (by continuity)).div_const _

lemma integrable_normalPDF : Integrable normalPDF := by
  have h : Integrable fun x : ℝ => Real.exp (-(1 / 2 : ℝ) * x ^ 2) :=
    integrable_exp_neg_mul_sq (by norm_num)
  have h2 := h.div_const (Real.sqrt (2 * Real.pi))
  have hfun : (fun x : ℝ => Real.exp (-(1 / 2 : ℝ) * x ^ 2) / Real.sqrt (2 * Real.pi))
      = normalPDF := by
    funext x
    rw [normalPDF]
    congr 1
    ring
  rwa [hfun] at h2

lemma integral_normalPDF : ∫ x : ℝ, normalPDF x = 1 := by
  unfold normalPDF
  rw [integral_div]
  have harg : ∀ x : ℝ, Real.exp (-x ^ 2 / 2) = Real.exp (-(1 / 2 : ℝ) * x ^ 2) := by
    intro x
    congr 1
    ring
  simp_rw [harg]
  rw [integral_gaussian (1 / 2 : ℝ)]
  rw [show Real.pi / (1 / 2 : ℝ) = 2 * Real.pi by ring]
  exact div_self (ne_of_gt sqrt_two_pi_pos)

lemma normalCDF_nonneg (x : ℝ) : 0 ≤ normalCDF x :=
  setIntegral_nonneg measurableSet_Iic fun t _ => normalPDF_nonneg t

lemma normalCDF_le_one (x : ℝ) : normalCDF x ≤ 1 := by
  rw [← integral_normalPDF]
  exact setIntegral_le_integral integrable_normalPDF (ae_of_all _ normalPDF_nonneg)

lemma normalCDF_add_neg (x : ℝ) : normalCDF x + normalCDF (-x) = 1 := by
  have h1 : normalCDF (-x) = ∫ t in Ioi x, normalPDF t := by
    have h := integral_comp_neg_Iic (-x) normalPDF
    rw [neg_neg] at h
    simp_rw [normalPDF_neg] at h
    rw [normalCDF]
    exact h
  rw [normalCDF, h1,
    intervalIntegral.integral_Iic_add_Ioi integrable_normalPDF.integrableOn
      integrable_normalPDF.integrableOn,
    integral_normalPDF]

lemma hasDerivAt_normalCDF (x : ℝ) : HasDerivAt normalCDF (normalPDF x) x := by
  have hrepr : normalCDF = fun y => normalCDF 0 + ∫ t in (0 : ℝ)..y, normalPDF t := by
    funext y
    rw [← intervalIntegral.integral_Iic_sub_Iic integrable_normalPDF.integrableOn
      integrable_normalPDF.integrableOn]
    rw [normalCDF, normalCDF]
    ring
  rw [hrepr]
  exact ((continuous_normalPDF.integral_hasStrictDerivAt 0 x).hasDerivAt).const_add
    (normalCDF 0)

/-! ### The EReal-extended CDF and PDF -/

lemma Phi_top : Phi ⊤ = 1 := by
  rw [Phi, if_pos rfl]

lemma Phi_bot : Phi ⊥ = 0 := by
  rw [Phi, if_neg bot_ne_top, if_pos rfl]

lemma Phi_coe (y : ℝ) : Phi (y : EReal) = normalCDF y := by
  rw [Phi, if_neg (EReal.coe_ne_top y), if_neg (EReal.coe_ne_bot y), EReal.toReal_coe]

lemma phi_top : phi ⊤ = 0 := by
  rw [phi, if_pos rfl]

lemma phi_bot : phi ⊥ = 0 := by
  rw [phi, if_neg bot_ne_top, if_pos rfl]

lemma phi_coe (y : ℝ) : phi (y : EReal) = normalPDF y := by
  rw [phi, if_neg (EReal.coe_ne_top y), if_neg (EReal.coe_ne_bot y), EReal.toReal_coe]

lemma Phi_nonneg (x : EReal) : 0 ≤ Phi x := by
  induction x using EReal.rec with
  | h_bot => rw [Phi_bot]
  | h_real y => rw [Phi_coe]; exact normalCDF_nonneg y
  | h_top => rw [Phi_top]; norm_num

lemma Phi_le_one (x : EReal) : Phi x ≤ 1 := by
  induction x using EReal.rec with
  | h_bot => rw [Phi_bot]; norm_num
  | h_real y => rw [Phi_coe]; exact normalCDF_le_one y
  | h_top => rw [Phi_top]

lemma phi_nonneg (x : EReal) : 0 ≤ phi x := by
  induction x using EReal.rec with
  | h_bot => rw [phi_bot]
  | h_real y => rw [phi_coe]; exact normalPDF_nonneg y
  | h_top => rw [phi_top]

lemma phi_le_one (x : EReal) : phi x ≤ 1 := by
  induction x using EReal.rec with
  | h_bot => rw [phi_bot]; norm_num
  | h_real y => rw [phi_coe]; exact normalPDF_le_one y
  | h_top => rw [phi_top]; norm_num

lemma Phi_add_neg (x : EReal) : Phi x + Phi (-x) = 1 := by
  induction x using EReal.rec with
  | h_bot => rw [Phi_bot, EReal.neg_bot, Phi_top]; norm_num
  | h_real y => rw [show -(y : EReal) = ((-y : ℝ) : EReal) from (EReal.coe_neg y).symm,
      Phi_coe, Phi_coe]; exact normalCDF_add_neg y
  | h_top => rw [Phi_top, EReal.neg_top, Phi_bot]; norm_num

/-! ### Validation and branch helpers -/

lemma check_inputs_ok {S K T r sigma : ℝ} (hS : 0 < S) (hK : 0 < K) (hT : 0 < T)
    (hsig : 0 < sigma) : check_inputs S K T r sigma = Except.ok () := by
  rw [check_inputs, if_neg (not_le.mpr hS), if_neg (not_le.mpr hK), if_neg (not_le.mpr hT),
    if_neg (not_le.mpr hsig)]

lemma run_ok (v : ℝ) : run (Except.ok ()) v = Except.ok v := rfl

lemma run_error_iff (c : Except String Unit) (v : ℝ) (m : String) :
    run c v = Except.error m ↔ c = Except.error m := by
  cases c <;> simp [run]

lemma check_inputs_error_iff (S K T r sigma : ℝ) :
    (∃ m, check_inputs S K T r sigma = Except.error m) ↔
      S ≤ 0 ∨ K ≤ 0 ∨ T ≤ 0 ∨ sigma ≤ 0 := by
  unfold check_inputs
  split_ifs <;> simp [*]

end BlackScholes

end

namespace BlackScholes

/-- C1: for every input with S, K, T, sigma positive, if T is at most 1e-10
then call_price returns the intrinsic value max 0 (S - K) and put_price
returns max 0 (K - S); otherwise call_price returns
S * Phi d1 - K * exp (-r T) * Phi d2 and put_price returns
K * exp (-r T) * Phi (-d2) - S * Phi (-d1), with d1 and d2 exactly as the
d1/d2 computation produces them. -/
theorem price_formulas (S K T r sigma : ℝ) (hS : 0 < S) (hK : 0 < K) (hT : 0 < T)
    (hsig : 0 < sigma) :
    (T ≤ 1e-10 →
      call_price S K T r sigma = Except.ok (max 0 (S - K)) ∧
      put_price S K T r sigma = Except.ok (max 0 (K - S))) ∧
    (1e-10 < T →
      call_price S K T r sigma =
        Except.ok (S * Phi (d1 S K T r sigma)
          - K * Real.exp (-r * T) * Phi (d2 S K T r sigma)) ∧
      put_price S K T r sigma =
        Except.ok (K * Real.exp (-r * T) * Phi (-(d2 S K T r sigma))
          - S * Phi (-(d1 S K T r sigma)))) := by
  have hchk := check_inputs_ok (r := r) hS hK hT hsig
  constructor
  · intro h
    constructor
    · rw [call_price, hchk, run_ok, call_price_val, if_pos h]
    · rw [put_price, hchk, run_ok, put_price_val, if_pos h]
  · intro h
    have h' : ¬ T ≤ 1e-10 := not_le.mpr h
    constructor
    · rw [call_price, hchk, run_ok, call_price_val, if_neg h']
    · rw [put_price, hchk, run_ok, put_price_val, if_neg h']

/-- Witness for C1 at the concrete input S = 2, K = 1, T = 1, r = 1,
sigma = 1 (main branch). -/
theorem price_formulas_witness :
    call_price 2 1 1 1 1 =
      Except.ok (2 * Phi (d1 2 1 1 1 1) - 1 * Real.exp (-1 * 1) * Phi (d2 2 1 1 1 1)) :=
  ((price_formulas 2 1 1 1 1 (by norm_num) (by norm_num) (by norm_num) (by norm_num)).2
    (by norm_num)).1

/-- C2: for every input with S, K, sigma positive and T strictly above the
1e-10 cutoff, each Greek returns exactly its table formula, with gamma and
vega being the single functions shared between call and put. -/
theorem greek_formulas (S K T r sigma : ℝ) (hS : 0 < S) (hK : 0 < K)
    (hT : 1e-10 < T) (hsig : 0 < sigma) :
    call_delta S K T r sigma = Except.ok (Phi (d1 S K T r sigma)) ∧
    put_delta S K T r sigma = Except.ok (Phi (d1 S K T r sigma) - 1) ∧
    gamma S K T r sigma =
      Except.ok (phi (d1 S K T r sigma) / (S * sigma * Real.sqrt T)) ∧
    vega S K T r sigma = Except.ok (S * phi (d1 S K T r sigma) * Real.sqrt T) ∧
    call_theta S K T r sigma =
      Except.ok (-(S * phi (d1 S K T r sigma) * sigma) / (2 * Real.sqrt T)
        - r * K * Real.exp (-r * T) * Phi (d2 S K T r sigma)) ∧
    put_theta S K T r sigma =
      Except.ok (-(S * phi (d1 S K T r sigma) * sigma) / (2 * Real.sqrt T)
        + r * K * Real.exp (-r * T) * Phi (-(d2 S K T r sigma))) ∧
    call_rho S K T r sigma =
      Except.ok (K * T * Real.exp (-r * T) * Phi (d2 S K T r sigma)) ∧
    put_rho S K T r sigma =
      Except.ok (-K * T * Real.exp (-r * T) * Phi (-(d2 S K T r sigma))) := by
  have hT0 : 0 < T := lt_trans (by norm_num) hT
  have hchk := check_inputs_ok (r := r) hS hK hT0 hsig
  have h' : ¬ T ≤ 1e-10 := not_le.mpr hT
  refine ⟨?_, ?_, ?_, ?_, ?_, ?_, ?_, ?_⟩
  · rw [call_delta, hchk, run_ok, call_delta_val, if_neg h']
  · rw [put_delta, hchk, run_ok, put_delta_val, if_neg h']
  · rw [gamma, hchk, run_ok, gamma_val, if_neg h']
  · rw [vega, hchk, run_ok, vega_val, if_neg h']
  · rw [call_theta, hchk, run_ok, call_theta_val, if_neg h']
  · rw [put_theta, hchk, run_ok, put_theta_val, if_neg h']
  · rw [call_rho, hchk, run_ok, call_rho_val, if_neg h']
  · rw [put_rho, hchk, run_ok, put_rho_val, if_neg h']

/-- Witness for C2 at the concrete input S = 2, K = 1, T = 1, r = 1,
sigma = 1. -/
theorem greek_formulas_witness :
    call_delta 2 1 1 1 1 = Except.ok (Phi (d1 2 1 1 1 1)) :=
  (greek_formulas 2 1 1 1 1 (by norm_num) (by norm_num) (by norm_num) (by norm_num)).1

/-- C3: every one of the ten public functions fails exactly when the
validator fails, with the same error message; the validator fails exactly
when S, K, T or sigma violates its positivity constraint (r never causes a
failure, it is universally quantified here); and the message names the
first violated field in the order S, K, T, sigma.  On failure the result is
`Except.error`, which carries no numerical payload, so no numerical result
is produced. -/
theorem validation_characterization (S K T r sigma : ℝ) :
    (∀ m : String,
      (call_price S K T r sigma = Except.error m ↔
        check_inputs S K T r sigma = Except.error m) ∧
      (put_price S K T r sigma = Except.error m ↔
        check_inputs S K T r sigma = Except.error m) ∧
      (call_delta S K T r sigma = Except.error m ↔
        check_inputs S K T r sigma = Except.error m) ∧
      (put_delta S K T r sigma = Except.error m ↔
        check_inputs S K T r sigma = Except.error m) ∧
      (call_theta S K T r sigma = Except.error m ↔
        check_inputs S K T r sigma = Except.error m) ∧
      (put_theta S K T r sigma = Except.error m ↔
        check_inputs S K T r sigma = Except.error m) ∧
      (call_rho S K T r sigma = Except.error m ↔
        check_inputs S K T r sigma = Except.error m) ∧
      (put_rho S K T r sigma = Except.error m ↔
        check_inputs S K T r sigma = Except.error m) ∧
      (gamma S K T r sigma = Except.error m ↔
        check_inputs S K T r sigma = Except.error m) ∧
      (vega S K T r sigma = Except.error m ↔
        check_inputs S K T r sigma = Except.error m)) ∧
    ((∃ m, check_inputs S K T r sigma = Except.error m) ↔
      S ≤ 0 ∨ K ≤ 0 ∨ T ≤ 0 ∨ sigma ≤ 0) ∧
    (∀ m : String, check_inputs S K T r sigma = Except.error m →
      (S ≤ 0 ∧ m = "Asset price must be positive.") ∨
      (¬ S ≤ 0 ∧ K ≤ 0 ∧ m = "Strike price must be positive.") ∨
      (¬ S ≤ 0 ∧ ¬ K ≤ 0 ∧ T ≤ 0 ∧ m = "Time must be positive.") ∨
      (¬ S ≤ 0 ∧ ¬ K ≤ 0 ∧ ¬ T ≤ 0 ∧ sigma ≤ 0 ∧
        m = "Volatility must be positive")) := by
  refine ⟨?_, check_inputs_error_iff S K T r sigma, ?_⟩
  · intro m
    exact ⟨run_error_iff _ _ _, run_error_iff _ _ _, run_error_iff _ _ _,
      run_error_iff _ _ _, run_error_iff _ _ _, run_error_iff _ _ _,
      run_error_iff _ _ _, run_error_iff _ _ _, run_error_iff _ _ _,
      run_error_iff _ _ _⟩
  · intro m hm
    unfold check_inputs at hm
    split_ifs at hm with h1 h2 h3 h4 <;> simp only [Except.error.injEq] at hm <;>
      tauto

/-- Witness for C3: at S = -1 the call pricer fails with the message naming
the asset price. -/
theorem validation_characterization_witness :
    call_price (-1) 100 1 (1 / 20) (1 / 5) =
      Except.error "Asset price must be positive." := by
  have h := validation_characterization (-1) 100 1 (1 / 20) (1 / 5)
  exact (h.1 "Asset price must be positive.").1.mpr
    (by rw [check_inputs, if_pos (by norm_num : (-1 : ℝ) ≤ 0)])

/-- C4: for sigma positive, d1 follows exactly the edge-case policy (the
absolute value in the source's second guard is redundant there because
sigma * sqrt T is nonnegative), and d2 is always d1 minus sigma * sqrt T. -/
theorem d1_d2_policy (S K T r sigma : ℝ) (hsig : 0 < sigma) :
    d1 S K T r sigma =
      (if T ≤ 1e-10 then
        (if S > K then (⊤ : EReal) else if S < K then ⊥ else 0)
      else if sigma * Real.sqrt T ≤ 1e-10 then
        (if S > K then (⊤ : EReal) else ⊥)
      else
        (((Real.log (S / K) + (r + sigma ^ 2 / 2) * T) / (sigma * Real.sqrt T) : ℝ) :
          EReal)) ∧
    d2 S K T r sigma = d1 S K T r sigma - ((sigma * Real.sqrt T : ℝ) : EReal) := by
  refine ⟨?_, rfl⟩
  by_cases hT : T ≤ 1e-10
  · rw [d1, if_pos hT, if_pos hT]
  · have hT0 : 0 < T := lt_trans (by norm_num) (not_le.mp hT)
    have hprod : 0 < sigma * Real.sqrt T := mul_pos hsig (Real.sqrt_pos.mpr hT0)
    rw [d1, if_neg hT, if_neg hT, abs_of_pos hprod]
    by_cases hs : sigma * Real.sqrt T ≤ 1e-10
    · rw [if_pos hs, if_pos hs]
    · rw [if_neg hs, if_neg hs]
      norm_num [EReal.coe_eq_coe_iff]
      ring_nf

/-- Witness for C4 at the concrete input S = 1, K = 2, T = 1, r = 0,
sigma = 1. -/
theorem d1_d2_policy_witness :
    d1 1 2 1 0 1 =
      (if (1 : ℝ) ≤ 1e-10 then
        (if (1 : ℝ) > 2 then (⊤ : EReal) else if (1 : ℝ) < 2 then ⊥ else 0)
      else if 1 * Real.sqrt 1 ≤ 1e-10 then
        (if (1 : ℝ) > 2 then (⊤ : EReal) else ⊥)
      else
        (((Real.log (1 / 2) + (0 + 1 ^ 2 / 2) * 1) / (1 * Real.sqrt 1) : ℝ) : EReal)) :=
  (d1_d2_policy 1 2 1 0 1 (by norm_num)).1

/-- C6: at or near expiry (T at most 1e-10, with all four inputs positive)
gamma, vega, both thetas and both rhos return 0, call_delta returns 1 when
S is above K and 0 otherwise, put_delta returns -1 when S is below K and 0
otherwise; in particular at S = K both deltas return 0. -/
theorem greeks_at_expiry (S K T r sigma : ℝ) (hS : 0 < S) (hK : 0 < K) (hT0 : 0 < T)
    (hsig : 0 < sigma) (hT : T ≤ 1e-10) :
    gamma S K T r sigma = Except.ok 0 ∧
    vega S K T r sigma = Except.ok 0 ∧
    call_theta S K T r sigma = Except.ok 0 ∧
    put_theta S K T r sigma = Except.ok 0 ∧
    call_rho S K T r sigma = Except.ok 0 ∧
    put_rho S K T r sigma = Except.ok 0 ∧
    call_delta S K T r sigma = Except.ok (if S > K then 1 else 0) ∧
    put_delta S K T r sigma = Except.ok (if S < K then -1 else 0) ∧
    (S = K →
      call_delta S K T r sigma = Except.ok 0 ∧ put_delta S K T r sigma = Except.ok 0) := by
  have hchk := check_inputs_ok (r := r) hS hK hT0 hsig
  refine ⟨?_, ?_, ?_, ?_, ?_, ?_, ?_, ?_, ?_⟩
  · rw [gamma, hchk, run_ok, gamma_val, if_pos hT]
  · rw [vega, hchk, run_ok, vega_val, if_pos hT]
  · rw [call_theta, hchk, run_ok, call_theta_val, if_pos hT]
  · rw [put_theta, hchk, run_ok, put_theta_val, if_pos hT]
  · rw [call_rho, hchk, run_ok, call_rho_val, if_pos hT]
  · rw [put_rho, hchk, run_ok, put_rho_val, if_pos hT]
  · rw [call_delta, hchk, run_ok, call_delta_val, if_pos hT]
  · rw [put_delta, hchk, run_ok, put_delta_val, if_pos hT]
  · intro hSK
    constructor
    · rw [call_delta, hchk, run_ok, call_delta_val, if_pos hT,
        if_neg (by rw [hSK]; exact lt_irrefl K)]
    · rw [put_delta, hchk, run_ok, put_delta_val, if_pos hT,
        if_neg (by rw [hSK]; exact lt_irrefl K)]

/-- Witness for C6 at the at-the-money expiry edge S = K = 100,
T = 1e-12. -/
theorem greeks_at_expiry_witness :
    gamma 100 100 1e-12 (1 / 20) (1 / 5) = Except.ok 0 :=
  (greeks_at_expiry 100 100 1e-12 (1 / 20) (1 / 5) (by norm_num) (by norm_num)
    (by norm_num) (by norm_num) (by norm_num)).1

/-- C5 (amended): with all four inputs positive, put-call parity holds
exactly when T is above the 1e-10 cutoff; at or below the cutoff the two
prices are the intrinsic values and their difference is exactly S - K
(which is within 1e-8 of S - K exp (-r T) only when K (1 - exp (-r T)) is
small, not for all valid inputs). -/
theorem put_call_parity (S K T r sigma : ℝ) (hS : 0 < S) (hK : 0 < K) (hT : 0 < T)
    (hsig : 0 < sigma) :
    call_price S K T r sigma = Except.ok (call_price_val S K T r sigma) ∧
    put_price S K T r sigma = Except.ok (put_price_val S K T r sigma) ∧
    (1e-10 < T →
      call_price_val S K T r sigma - put_price_val S K T r sigma
        = S - K * Real.exp (-r * T)) ∧
    (T ≤ 1e-10 →
      call_price_val S K T r sigma - put_price_val S K T r sigma = S - K) := by
  have hchk := check_inputs_ok (r := r) hS hK hT hsig
  refine ⟨by rw [call_price, hchk, run_ok], by rw [put_price, hchk, run_ok], ?_, ?_⟩
  · intro h
    have h' : ¬ T ≤ 1e-10 := not_le.mpr h
    rw [call_price_val, put_price_val, if_neg h', if_neg h']
    have h1 := Phi_add_neg (d1 S K T r sigma)
    have h2 := Phi_add_neg (d2 S K T r sigma)
    calc S * Phi (d1 S K T r sigma) - K * Real.exp (-r * T) * Phi (d2 S K T r sigma)
          - (K * Real.exp (-r * T) * Phi (-(d2 S K T r sigma))
            - S * Phi (-(d1 S K T r sigma)))
        = S * (Phi (d1 S K T r sigma) + Phi (-(d1 S K T r sigma)))
          - K * Real.exp (-r * T)
            * (Phi (d2 S K T r sigma) + Phi (-(d2 S K T r sigma))) := by ring
      _ = S * 1 - K * Real.exp (-r * T) * 1 := by rw [h1, h2]
      _ = S - K * Real.exp (-r * T) := by ring
  · intro h
    rw [call_price_val, put_price_val, if_pos h, if_pos h]
    rcases le_total S K with hc | hc
    · rw [max_eq_left (by linarith), max_eq_right (by linarith)]
      ring
    · rw [max_eq_right (by linarith), max_eq_left (by linarith)]
      ring

/-- Witness for the amended C5 at S = 2, K = 1, T = 1, r = 1, sigma = 1. -/
theorem put_call_parity_witness :
    call_price_val 2 1 1 1 1 - put_price_val 2 1 1 1 1 = 2 - 1 * Real.exp (-1 * 1) :=
  (put_call_parity 2 1 1 1 1 (by norm_num) (by norm_num) (by norm_num)
    (by norm_num)).2.2.1 (by norm_num)

/-- C5 counterexample: at S = 1, K = 1e20, T = 1e-10, r = 1, sigma = 1
(all valid), the prices are the intrinsic values 0 and 1e20 - 1, and
call - put misses S - K exp (-r T) by roughly 5e9, far outside the claimed
1e-8 tolerance. -/
theorem parity_tolerance_counterexample :
    call_price 1 1e20 1e-10 1 1 = Except.ok 0 ∧
    put_price 1 1e20 1e-10 1 1 = Except.ok (1e20 - 1) ∧
    ¬ |(0 - (1e20 - 1) : ℝ) - (1 - 1e20 * Real.exp (-1 * 1e-10))| ≤ 1e-8 := by
  have hchk : check_inputs 1 1e20 1e-10 1 1 = Except.ok () :=
    check_inputs_ok (by norm_num) (by norm_num) (by norm_num) (by norm_num)
  refine ⟨?_, ?_, ?_⟩
  · rw [call_price, hchk, run_ok, call_price_val, if_pos (le_refl (1e-10 : ℝ))]
    norm_num
  · rw [put_price, hchk, run_ok, put_price_val, if_pos (le_refl (1e-10 : ℝ))]
    norm_num
  · have h1 : (1e-10 : ℝ) + 1 ≤ Real.exp 1e-10 := Real.add_one_le_exp _
    have hy : Real.exp (-1 * 1e-10) ≤ (1 + 1e-10)⁻¹ := by
      rw [show (-1 * 1e-10 : ℝ) = -(1e-10) by ring, Real.exp_neg]
      exact inv_anti₀ (by norm_num) (by linarith)
    have hy' : Real.exp (-1 * 1e-10) ≤ 1 - 5e-11 :=
      hy.trans (by norm_num)
    rw [not_le]
    have hval : (0 - (1e20 - 1) : ℝ) - (1 - 1e20 * Real.exp (-1 * 1e-10))
        ≤ -(5e9) := by nlinarith
    calc (1e-8 : ℝ) < 5e9 := by norm_num
      _ ≤ -((0 - (1e20 - 1) : ℝ) - (1 - 1e20 * Real.exp (-1 * 1e-10))) := by linarith
      _ ≤ |(0 - (1e20 - 1) : ℝ) - (1 - 1e20 * Real.exp (-1 * 1e-10))| :=
          neg_le_abs _

/-- C7: with all four inputs positive, call delta lies in the interval
from 0 to 1, put delta in the interval from -1 to 0, and gamma and vega
are nonnegative, in every branch of the computation. -/
theorem greek_bounds (S K T r sigma : ℝ) (hS : 0 < S) (hK : 0 < K) (hT : 0 < T)
    (hsig : 0 < sigma) :
    call_delta S K T r sigma = Except.ok (call_delta_val S K T r sigma) ∧
    put_delta S K T r sigma = Except.ok (put_delta_val S K T r sigma) ∧
    gamma S K T r sigma = Except.ok (gamma_val S K T r sigma) ∧
    vega S K T r sigma = Except.ok (vega_val S K T r sigma) ∧
    0 ≤ call_delta_val S K T r sigma ∧ call_delta_val S K T r sigma ≤ 1 ∧
    -1 ≤ put_delta_val S K T r sigma ∧ put_delta_val S K T r sigma ≤ 0 ∧
    0 ≤ gamma_val S K T r sigma ∧ 0 ≤ vega_val S K T r sigma := by
  have hchk := check_inputs_ok (r := r) hS hK hT hsig
  refine ⟨by rw [call_delta, hchk, run_ok], by rw [put_delta, hchk, run_ok],
    by rw [gamma, hchk, run_ok], by rw [vega, hchk, run_ok], ?_, ?_, ?_, ?_, ?_, ?_⟩
  · rw [call_delta_val]
    split_ifs <;> first | exact Phi_nonneg _ | norm_num
  · rw [call_delta_val]
    split_ifs <;> first | exact Phi_le_one _ | norm_num
  · rw [put_delta_val]
    split_ifs with h1 h2
    · norm_num
    · norm_num
    · have := Phi_nonneg (d1 S K T r sigma)
      linarith
  · rw [put_delta_val]
    split_ifs with h1 h2
    · norm_num
    · norm_num
    · have := Phi_le_one (d1 S K T r sigma)
      linarith
  · rw [gamma_val]
    split_ifs
    · exact le_refl 0
    · exact div_nonneg (phi_nonneg _)
        (mul_nonneg (mul_nonneg hS.le hsig.le) (Real.sqrt_nonneg T))
  · rw [vega_val]
    split_ifs
    · exact le_refl 0
    · exact mul_nonneg (mul_nonneg hS.le (phi_nonneg _)) (Real.sqrt_nonneg T)

/-- Witness for C7 at S = 2, K = 1, T = 1, r = 1, sigma = 1. -/
theorem greek_bounds_witness :
    0 ≤ call_delta_val 2 1 1 1 1 ∧ call_delta_val 2 1 1 1 1 ≤ 1 := by
  have h := greek_bounds 2 1 1 1 1 (by norm_num) (by norm_num) (by norm_num)
    (by norm_num)
  exact ⟨h.2.2.2.2.1, h.2.2.2.2.2.1⟩

/-! ### The main-branch closed form as a real-valued function, and its
derivative in the underlying price -/

/-- The closed-form (third-branch) value of d1 as a real number. -/
noncomputable def d1_real (S K T r sigma : ℝ) : ℝ :=
  (Real.log (S / K) + (r + 0.5 * sigma ^ 2) * T) / (sigma * Real.sqrt T)

lemma d1_eq_real {S K T r sigma : ℝ} (hT : ¬ T ≤ 1e-10)
    (ha : ¬ |sigma * Real.sqrt T| ≤ 1e-10) :
    d1 S K T r sigma = ((d1_real S K T r sigma : ℝ) : EReal) := by
  rw [d1, if_neg hT, if_neg ha, d1_real]

lemma d2_eq_real {S K T r sigma : ℝ} (hT : ¬ T ≤ 1e-10)
    (ha : ¬ |sigma * Real.sqrt T| ≤ 1e-10) :
    d2 S K T r sigma
      = ((d1_real S K T r sigma - sigma * Real.sqrt T : ℝ) : EReal) := by
  rw [d2, d1_eq_real hT ha, ← EReal.coe_sub]

lemma call_price_val_main {S K T r sigma : ℝ} (hT : ¬ T ≤ 1e-10)
    (ha : ¬ |sigma * Real.sqrt T| ≤ 1e-10) :
    call_price_val S K T r sigma
      = S * normalCDF (d1_real S K T r sigma)
        - K * Real.exp (-r * T)
          * normalCDF (d1_real S K T r sigma - sigma * Real.sqrt T) := by
  rw [call_price_val, if_neg hT, d1_eq_real hT ha, d2_eq_real hT ha, Phi_coe, Phi_coe]

lemma put_price_val_main {S K T r sigma : ℝ} (hT : ¬ T ≤ 1e-10)
    (ha : ¬ |sigma * Real.sqrt T| ≤ 1e-10) :
    put_price_val S K T r sigma
      = K * Real.exp (-r * T)
          * normalCDF (sigma * Real.sqrt T - d1_real S K T r sigma)
        - S * normalCDF (-(d1_real S K T r sigma)) := by
  rw [put_price_val, if_neg hT, d1_eq_real hT ha, d2_eq_real hT ha]
  have h1 : -(((d1_real S K T r sigma - sigma * Real.sqrt T : ℝ)) : EReal)
      = ((sigma * Real.sqrt T - d1_real S K T r sigma : ℝ) : EReal) := by
    rw [← EReal.coe_neg, neg_sub]
  have h2 : -(((d1_real S K T r sigma : ℝ)) : EReal)
      = ((-(d1_real S K T r sigma) : ℝ) : EReal) := (EReal.coe_neg _).symm
  rw [h1, h2, Phi_coe, Phi_coe]

/-- Gaussian shift identity used by the Black-Scholes delta computation. -/
lemma normalPDF_sub (u a : ℝ) :
    normalPDF (u - a) = normalPDF u * Real.exp (a * u - a ^ 2 / 2) := by
  rw [normalPDF, normalPDF, div_mul_eq_mul_div]
  congr 1
  rw [← Real.exp_add]
  congr 1
  ring

lemma hasDerivAt_d1_real {S K T r sigma : ℝ} (hS : 0 < S) (hK : 0 < K)
    (ha : sigma * Real.sqrt T ≠ 0) :
    HasDerivAt (fun s => d1_real s K T r sigma)
      (1 / (S * (sigma * Real.sqrt T))) S := by
  have h1 : HasDerivAt (fun s : ℝ => s / K) (1 / K) S := by
    simpa using (hasDerivAt_id S).div_const K
  have h2 : HasDerivAt (fun s : ℝ => Real.log (s / K)) ((S / K)⁻¹ * (1 / K)) S := by
    simpa [Function.comp] using
      (Real.hasDerivAt_log (ne_of_gt (div_pos hS hK))).comp S h1
  have h3 := (h2.add_const ((r + 0.5 * sigma ^ 2) * T)).div_const (sigma * Real.sqrt T)
  have heq : (S / K)⁻¹ * (1 / K) / (sigma * Real.sqrt T)
      = 1 / (S * (sigma * Real.sqrt T)) := by
    field_simp
    ring
  rw [heq] at h3
  exact h3

/-- The central cancellation: K exp (-r T) times the density at d2 equals
S times the density at d1 (both d taken in the closed-form branch). -/
lemma call_key_identity {S K T r sigma : ℝ} (hS : 0 < S) (hK : 0 < K) (hT : 0 < T)
    (ha : sigma * Real.sqrt T ≠ 0) :
    K * Real.exp (-r * T) * normalPDF (d1_real S K T r sigma - sigma * Real.sqrt T)
      = S * normalPDF (d1_real S K T r sigma) := by
  have ha2 : (sigma * Real.sqrt T) ^ 2 = sigma ^ 2 * T := by
    rw [mul_pow, Real.sq_sqrt hT.le]
  have harg : sigma * Real.sqrt T * d1_real S K T r sigma
      - (sigma * Real.sqrt T) ^ 2 / 2 = Real.log (S / K) + r * T := by
    rw [d1_real, mul_comm (sigma * Real.sqrt T)
      ((Real.log (S / K) + (r + 0.5 * sigma ^ 2) * T) / (sigma * Real.sqrt T)),
      div_mul_cancel₀ _ ha, ha2]
    ring
  rw [normalPDF_sub, harg, Real.exp_add, Real.exp_log (div_pos hS hK),
    show (-r * T) = -(r * T) by ring, Real.exp_neg]
  field_simp
  ring

/-- In the closed-form branch the call price, as a function of the
underlying price, has derivative Phi (d1): the textbook delta. -/
lemma hasDerivAt_call_main {S K T r sigma : ℝ} (hS : 0 < S) (hK : 0 < K) (hT : 0 < T)
    (ha : 0 < sigma * Real.sqrt T) :
    HasDerivAt (fun s => s * normalCDF (d1_real s K T r sigma)
        - K * Real.exp (-r * T)
          * normalCDF (d1_real s K T r sigma - sigma * Real.sqrt T))
      (normalCDF (d1_real S K T r sigma)) S := by
  have hd1 : HasDerivAt (fun s => d1_real s K T r sigma)
      (1 / (S * (sigma * Real.sqrt T))) S := hasDerivAt_d1_real hS hK ha.ne'
  have hC1 : HasDerivAt (fun s => normalCDF (d1_real s K T r sigma))
      (normalPDF (d1_real S K T r sigma) * (1 / (S * (sigma * Real.sqrt T)))) S :=
    (hasDerivAt_normalCDF _).comp S hd1
  have hC2 : HasDerivAt
      (fun s => normalCDF (d1_real s K T r sigma - sigma * Real.sqrt T))
      (normalPDF (d1_real S K T r sigma - sigma * Real.sqrt T)
        * (1 / (S * (sigma * Real.sqrt T)))) S :=
    (hasDerivAt_normalCDF _).comp S (hd1.sub_const (sigma * Real.sqrt T))
  have h := ((hasDerivAt_id S).mul hC1).sub (hC2.const_mul (K * Real.exp (-r * T)))
  convert h using 1
  have hkey := call_key_identity (r := r) hS hK hT ha.ne'
  have hterm : K * Real.exp (-r * T)
      * (normalPDF (d1_real S K T r sigma - sigma * Real.sqrt T)
        * (1 / (S * (sigma * Real.sqrt T))))
      = S * (normalPDF (d1_real S K T r sigma)
        * (1 / (S * (sigma * Real.sqrt T)))) := by
    rw [← mul_assoc, hkey, mul_assoc]
  simp only [id_eq]
  rw [hterm]
  ring

/-- In the closed-form branch the put price, as a function of the underlying
price, has derivative -Phi (-d1). -/
lemma hasDerivAt_put_main {S K T r sigma : ℝ} (hS : 0 < S) (hK : 0 < K) (hT : 0 < T)
    (ha : 0 < sigma * Real.sqrt T) :
    HasDerivAt (fun s => K * Real.exp (-r * T)
        * normalCDF (sigma * Real.sqrt T - d1_real s K T r sigma)
        - s * normalCDF (-(d1_real s K T r sigma)))
      (-(normalCDF (-(d1_real S K T r sigma)))) S := by
  have hd1 : HasDerivAt (fun s => d1_real s K T r sigma)
      (1 / (S * (sigma * Real.sqrt T))) S := hasDerivAt_d1_real hS hK ha.ne'
  have hC3 : HasDerivAt
      (fun s => normalCDF (sigma * Real.sqrt T - d1_real s K T r sigma))
      (normalPDF (sigma * Real.sqrt T - d1_real S K T r sigma)
        * (-(1 / (S * (sigma * Real.sqrt T))))) S :=
    (hasDerivAt_normalCDF _).comp S (hd1.const_sub (sigma * Real.sqrt T))
  have hC4 : HasDerivAt (fun s => normalCDF (-(d1_real s K T r sigma)))
      (normalPDF (-(d1_real S K T r sigma))
        * (-(1 / (S * (sigma * Real.sqrt T))))) S :=
    (hasDerivAt_normalCDF _).comp S hd1.neg
  have h := (hC3.const_mul (K * Real.exp (-r * T))).sub ((hasDerivAt_id S).mul hC4)
  convert h using 1
  have hkey := call_key_identity (r := r) hS hK hT ha.ne'
  have h3 : normalPDF (sigma * Real.sqrt T - d1_real S K T r sigma)
      = normalPDF (d1_real S K T r sigma - sigma * Real.sqrt T) := by
    rw [show sigma * Real.sqrt T - d1_real S K T r sigma
        = -(d1_real S K T r sigma - sigma * Real.sqrt T) by ring, normalPDF_neg]
  have h4 : normalPDF (-(d1_real S K T r sigma))
      = normalPDF (d1_real S K T r sigma) := normalPDF_neg _
  have hterm : K * Real.exp (-r * T)
      * (normalPDF (d1_real S K T r sigma - sigma * Real.sqrt T)
        * (-(1 / (S * (sigma * Real.sqrt T)))))
      = S * (normalPDF (d1_real S K T r sigma)
        * (-(1 / (S * (sigma * Real.sqrt T))))) := by
    rw [← mul_assoc, hkey, mul_assoc]
  simp only [id_eq]
  rw [h3, h4, hterm]
  ring

/-- Monotonicity of the closed-form call value in the underlying price. -/
lemma call_main_mono {K T r sigma S1 S2 : ℝ} (hK : 0 < K) (hT : 0 < T)
    (ha : 0 < sigma * Real.sqrt T) (h1 : 0 < S1) (h12 : S1 ≤ S2) :
    S1 * normalCDF (d1_real S1 K T r sigma)
      - K * Real.exp (-r * T)
        * normalCDF (d1_real S1 K T r sigma - sigma * Real.sqrt T)
    ≤ S2 * normalCDF (d1_real S2 K T r sigma)
      - K * Real.exp (-r * T)
        * normalCDF (d1_real S2 K T r sigma - sigma * Real.sqrt T) := by
  have h2 : 0 < S2 := lt_of_lt_of_le h1 h12
  have hmono : MonotoneOn (fun s => s * normalCDF (d1_real s K T r sigma)
      - K * Real.exp (-r * T)
        * normalCDF (d1_real s K T r sigma - sigma * Real.sqrt T)) (Ioi (0 : ℝ)) := by
    apply monotoneOn_of_deriv_nonneg (convex_Ioi 0)
    · intro x hx
      exact (hasDerivAt_call_main hx hK hT ha).continuousAt.continuousWithinAt
    · rw [interior_Ioi]
      intro x hx
      exact (hasDerivAt_call_main hx hK hT ha).differentiableAt.differentiableWithinAt
    · rw [interior_Ioi]
      intro x hx
      rw [(hasDerivAt_call_main hx hK hT ha).deriv]
      exact normalCDF_nonneg _
  exact hmono (mem_Ioi.mpr h1) (mem_Ioi.mpr h2) h12

/-- Antitonicity of the closed-form put value in the underlying price. -/
lemma put_main_anti {K T r sigma S1 S2 : ℝ} (hK : 0 < K) (hT : 0 < T)
    (ha : 0 < sigma * Real.sqrt T) (h1 : 0 < S1) (h12 : S1 ≤ S2) :
    K * Real.exp (-r * T)
        * normalCDF (sigma * Real.sqrt T - d1_real S2 K T r sigma)
      - S2 * normalCDF (-(d1_real S2 K T r sigma))
    ≤ K * Real.exp (-r * T)
        * normalCDF (sigma * Real.sqrt T - d1_real S1 K T r sigma)
      - S1 * normalCDF (-(d1_real S1 K T r sigma)) := by
  have h2 : 0 < S2 := lt_of_lt_of_le h1 h12
  have hanti : AntitoneOn (fun s => K * Real.exp (-r * T)
      * normalCDF (sigma * Real.sqrt T - d1_real s K T r sigma)
      - s * normalCDF (-(d1_real s K T r sigma))) (Ioi (0 : ℝ)) := by
    apply antitoneOn_of_deriv_nonpos (convex_Ioi 0)
    · intro x hx
      exact (hasDerivAt_put_main hx hK hT ha).continuousAt.continuousWithinAt
    · rw [interior_Ioi]
      intro x hx
      exact (hasDerivAt_put_main hx hK hT ha).differentiableAt.differentiableWithinAt
    · rw [interior_Ioi]
      intro x hx
      rw [(hasDerivAt_put_main hx hK hT ha).deriv]
      simp [normalCDF_nonneg]
  exact hanti (mem_Ioi.mpr h1) (mem_Ioi.mpr h2) h12

/-- C8 (amended): for inputs in the expiry branch (T at most 1e-10) or in
the closed-form branch (sigma sqrt T above 1e-10), call_price is
non-decreasing and put_price non-increasing in the underlying price.  The
remaining degenerate branch (T above the cutoff but sigma sqrt T at most
1e-10) genuinely violates the claim, see the counterexample. -/
theorem price_monotone_in_underlying (K T r sigma S1 S2 : ℝ) (hK : 0 < K) (hT : 0 < T)
    (hsig : 0 < sigma) (h1 : 0 < S1) (h12 : S1 ≤ S2)
    (hbranch : T ≤ 1e-10 ∨ 1e-10 < sigma * Real.sqrt T) :
    call_price S1 K T r sigma = Except.ok (call_price_val S1 K T r sigma) ∧
    call_price S2 K T r sigma = Except.ok (call_price_val S2 K T r sigma) ∧
    put_price S1 K T r sigma = Except.ok (put_price_val S1 K T r sigma) ∧
    put_price S2 K T r sigma = Except.ok (put_price_val S2 K T r sigma) ∧
    call_price_val S1 K T r sigma ≤ call_price_val S2 K T r sigma ∧
    put_price_val S2 K T r sigma ≤ put_price_val S1 K T r sigma := by
  have h2 : 0 < S2 := lt_of_lt_of_le h1 h12
  refine ⟨by rw [call_price, check_inputs_ok h1 hK hT hsig, run_ok],
    by rw [call_price, check_inputs_ok h2 hK hT hsig, run_ok],
    by rw [put_price, check_inputs_ok h1 hK hT hsig, run_ok],
    by rw [put_price, check_inputs_ok h2 hK hT hsig, run_ok], ?_, ?_⟩
  · by_cases hTe : T ≤ 1e-10
    · rw [call_price_val, call_price_val, if_pos hTe, if_pos hTe]
      exact max_le_max le_rfl (sub_le_sub_right h12 K)
    · have ha : 1e-10 < sigma * Real.sqrt T := hbranch.resolve_left hTe
      have haz : 0 < sigma * Real.sqrt T := lt_trans (by norm_num) ha
      have hab : ¬ |sigma * Real.sqrt T| ≤ 1e-10 := by
        rw [abs_of_pos haz]
        exact not_le.mpr ha
      rw [call_price_val_main hTe hab, call_price_val_main hTe hab]
      exact call_main_mono hK hT haz h1 h12
  · by_cases hTe : T ≤ 1e-10
    · rw [put_price_val, put_price_val, if_pos hTe, if_pos hTe]
      exact max_le_max le_rfl (sub_le_sub_left h12 K)
    · have ha : 1e-10 < sigma * Real.sqrt T := hbranch.resolve_left hTe
      have haz : 0 < sigma * Real.sqrt T := lt_trans (by norm_num) ha
      have hab : ¬ |sigma * Real.sqrt T| ≤ 1e-10 := by
        rw [abs_of_pos haz]
        exact not_le.mpr ha
      rw [put_price_val_main hTe hab, put_price_val_main hTe hab]
      exact put_main_anti hK hT haz h1 h12

/-- Witness for the amended C8 at K = 1, T = 1, r = 0, sigma = 1,
S1 = 1, S2 = 2. -/
theorem price_monotone_in_underlying_witness :
    call_price_val 1 1 1 0 1 ≤ call_price_val 2 1 1 0 1 := by
  have h := price_monotone_in_underlying 1 1 0 1 1 2 (by norm_num) (by norm_num)
    (by norm_num) (by norm_num) (by norm_num)
    (Or.inr (by rw [Real.sqrt_one]; norm_num))
  exact h.2.2.2.2.1

/-- C8 counterexample: in the degenerate branch (T = 1, sigma = 1e-11, so
sigma sqrt T is below the 1e-10 cutoff) with r = -1, raising the underlying
from 100 to 101 with K = 100 makes the call price fall from 0 to
101 - 100 e, a negative number: call_price is not non-decreasing in S over
all valid inputs. -/
theorem monotonicity_counterexample :
    call_price 100 100 1 (-1) 1e-11 = Except.ok 0 ∧
    call_price 101 100 1 (-1) 1e-11 = Except.ok (101 - 100 * Real.exp 1) ∧
    101 - 100 * Real.exp 1 < 0 := by
  have hsq : Real.sqrt (1 : ℝ) = 1 := Real.sqrt_one
  have hTe : ¬ (1 : ℝ) ≤ 1e-10 := by norm_num
  have hguard : |(1e-11 : ℝ) * Real.sqrt 1| ≤ 1e-10 := by
    rw [hsq, mul_one, abs_of_pos (by norm_num : (0 : ℝ) < 1e-11)]
    norm_num
  refine ⟨?_, ?_, ?_⟩
  · rw [call_price,
      check_inputs_ok (by norm_num) (by norm_num) (by norm_num) (by norm_num),
      run_ok, call_price_val, if_neg hTe]
    rw [d2, d1, if_neg hTe, if_pos hguard, if_neg (by norm_num : ¬ (100:ℝ) > 100)]
    rw [EReal.bot_sub, Phi_bot]
    norm_num
  · rw [call_price,
      check_inputs_ok (by norm_num) (by norm_num) (by norm_num) (by norm_num),
      run_ok, call_price_val, if_neg hTe]
    rw [d2, d1, if_neg hTe, if_pos hguard, if_pos (by norm_num : (101:ℝ) > 100)]
    rw [EReal.top_sub_coe, Phi_top]
    rw [show (-(-1 : ℝ) * 1) = (1 : ℝ) by norm_num]
    norm_num
  · have h := Real.add_one_le_exp (1 : ℝ)
    nlinarith

lemma abs_mul_Phi_le {a : ℝ} (ha : 0 ≤ a) (x : EReal) : |a * Phi x| ≤ a := by
  rw [abs_of_nonneg (mul_nonneg ha (Phi_nonneg x))]
  calc a * Phi x ≤ a * 1 := mul_le_mul_of_nonneg_left (Phi_le_one x) ha
    _ = a := mul_one a

/-- C9: for every input that passes validation, each of the ten public
functions returns `Except.ok` of a real number (never an error, and in this
real-valued model never an IEEE infinity or NaN: the extended-real values
of d1/d2 are absorbed by the extended CDF and PDF), and that real number
satisfies an explicit finite bound. -/
theorem no_nonfinite_leak (S K T r sigma : ℝ) (hS : 0 < S) (hK : 0 < K) (hT : 0 < T)
    (hsig : 0 < sigma) :
    call_price S K T r sigma = Except.ok (call_price_val S K T r sigma) ∧
    put_price S K T r sigma = Except.ok (put_price_val S K T r sigma) ∧
    call_delta S K T r sigma = Except.ok (call_delta_val S K T r sigma) ∧
    put_delta S K T r sigma = Except.ok (put_delta_val S K T r sigma) ∧
    call_theta S K T r sigma = Except.ok (call_theta_val S K T r sigma) ∧
    put_theta S K T r sigma = Except.ok (put_theta_val S K T r sigma) ∧
    call_rho S K T r sigma = Except.ok (call_rho_val S K T r sigma) ∧
    put_rho S K T r sigma = Except.ok (put_rho_val S K T r sigma) ∧
    gamma S K T r sigma = Except.ok (gamma_val S K T r sigma) ∧
    vega S K T r sigma = Except.ok (vega_val S K T r sigma) ∧
    |call_price_val S K T r sigma| ≤ S + K + K * Real.exp (-r * T) ∧
    |put_price_val S K T r sigma| ≤ S + K + K * Real.exp (-r * T) ∧
    |call_delta_val S K T r sigma| ≤ 1 ∧
    |put_delta_val S K T r sigma| ≤ 1 ∧
    |call_theta_val S K T r sigma| ≤
      S * sigma / (2 * Real.sqrt T) + |r| * K * Real.exp (-r * T) ∧
    |put_theta_val S K T r sigma| ≤
      S * sigma / (2 * Real.sqrt T) + |r| * K * Real.exp (-r * T) ∧
    |call_rho_val S K T r sigma| ≤ K * T * Real.exp (-r * T) ∧
    |put_rho_val S K T r sigma| ≤ K * T * Real.exp (-r * T) ∧
    |gamma_val S K T r sigma| ≤ 1 / (S * sigma * Real.sqrt T) ∧
    |vega_val S K T r sigma| ≤ S * Real.sqrt T := by
  have hchk := check_inputs_ok (r := r) hS hK hT hsig
  have hsq : 0 < Real.sqrt T := Real.sqrt_pos.mpr hT
  have he : 0 < Real.exp (-r * T) := Real.exp_pos _
  have hKe : 0 < K * Real.exp (-r * T) := mul_pos hK he
  refine ⟨by rw [call_price, hchk, run_ok], by rw [put_price, hchk, run_ok],
    by rw [call_delta, hchk, run_ok], by rw [put_delta, hchk, run_ok],
    by rw [call_theta, hchk, run_ok], by rw [put_theta, hchk, run_ok],
    by rw [call_rho, hchk, run_ok], by rw [put_rho, hchk, run_ok],
    by rw [gamma, hchk, run_ok], by rw [vega, hchk, run_ok],
    ?_, ?_, ?_, ?_, ?_, ?_, ?_, ?_, ?_, ?_⟩
  · rw [call_price_val]
    split_ifs with h
    · rw [abs_of_nonneg (le_max_left 0 (S - K))]
      have h1 : max 0 (S - K) ≤ S := max_le hS.le (by linarith)
      linarith
    · calc |S * Phi (d1 S K T r sigma)
            - K * Real.exp (-r * T) * Phi (d2 S K T r sigma)|
          ≤ |S * Phi (d1 S K T r sigma)|
            + |K * Real.exp (-r * T) * Phi (d2 S K T r sigma)| := abs_sub _ _
        _ ≤ S + K * Real.exp (-r * T) :=
            add_le_add (abs_mul_Phi_le hS.le _) (abs_mul_Phi_le hKe.le _)
        _ ≤ S + K + K * Real.exp (-r * T) := by linarith
  · rw [put_price_val]
    split_ifs with h
    · rw [abs_of_nonneg (le_max_left 0 (K - S))]
      have h1 : max 0 (K - S) ≤ K := max_le hK.le (by linarith)
      linarith
    · calc |K * Real.exp (-r * T) * Phi (-(d2 S K T r sigma))
            - S * Phi (-(d1 S K T r sigma))|
          ≤ |K * Real.exp (-r * T) * Phi (-(d2 S K T r sigma))|
            + |S * Phi (-(d1 S K T r sigma))| := abs_sub _ _
        _ ≤ K * Real.exp (-r * T) + S :=
            add_le_add (abs_mul_Phi_le hKe.le _) (abs_mul_Phi_le hS.le _)
        _ ≤ S + K + K * Real.exp (-r * T) := by linarith
  · rw [call_delta_val]
    split_ifs
    · norm_num
    · norm_num
    · rw [abs_of_nonneg (Phi_nonneg _)]
      exact Phi_le_one _
  · rw [put_delta_val]
    split_ifs
    · norm_num
    · norm_num
    · rw [abs_le]
      have h1 := Phi_nonneg (d1 S K T r sigma)
      have h2 := Phi_le_one (d1 S K T r sigma)
      constructor <;> linarith
  · rw [call_theta_val]
    split_ifs with h
    · rw [abs_zero]
      have h1 : 0 ≤ S * sigma / (2 * Real.sqrt T) :=
        div_nonneg (mul_nonneg hS.le hsig.le) (by linarith)
      have h2 : 0 ≤ |r| * K * Real.exp (-r * T) :=
        mul_nonneg (mul_nonneg (abs_nonneg r) hK.le) he.le
      linarith
    · have hfirst : |(-(S * phi (d1 S K T r sigma) * sigma)) / (2 * Real.sqrt T)|
          ≤ S * sigma / (2 * Real.sqrt T) := by
        rw [abs_div, abs_neg, abs_of_pos (by linarith : (0:ℝ) < 2 * Real.sqrt T),
          abs_of_nonneg (mul_nonneg (mul_nonneg hS.le (phi_nonneg _)) hsig.le)]
        apply (div_le_div_iff_of_pos_right (by linarith : (0:ℝ) < 2 * Real.sqrt T)).mpr
        nlinarith [phi_le_one (d1 S K T r sigma), phi_nonneg (d1 S K T r sigma),
          mul_pos hS hsig]
      have hsecond : |r * K * Real.exp (-r * T) * Phi (d2 S K T r sigma)|
          ≤ |r| * K * Real.exp (-r * T) := by
        rw [show r * K * Real.exp (-r * T) * Phi (d2 S K T r sigma)
            = r * (K * Real.exp (-r * T) * Phi (d2 S K T r sigma)) by ring, abs_mul]
        rw [show |r| * K * Real.exp (-r * T) = |r| * (K * Real.exp (-r * T)) by ring]
        exact mul_le_mul_of_nonneg_left (abs_mul_Phi_le hKe.le _) (abs_nonneg r)
      calc |(-(S * phi (d1 S K T r sigma) * sigma)) / (2 * Real.sqrt T)
            - r * K * Real.exp (-r * T) * Phi (d2 S K T r sigma)|
          ≤ |(-(S * phi (d1 S K T r sigma) * sigma)) / (2 * Real.sqrt T)|
            + |r * K * Real.exp (-r * T) * Phi (d2 S K T r sigma)| := abs_sub _ _
        _ ≤ S * sigma / (2 * Real.sqrt T) + |r| * K * Real.exp (-r * T) :=
            add_le_add hfirst hsecond
  · rw [put_theta_val]
    split_ifs with h
    · rw [abs_zero]
      have h1 : 0 ≤ S * sigma / (2 * Real.sqrt T) :=
        div_nonneg (mul_nonneg hS.le hsig.le) (by linarith)
      have h2 : 0 ≤ |r| * K * Real.exp (-r * T) :=
        mul_nonneg (mul_nonneg (abs_nonneg r) hK.le) he.le
      linarith
    · have hfirst : |(-(S * phi (d1 S K T r sigma) * sigma)) / (2 * Real.sqrt T)|
          ≤ S * sigma / (2 * Real.sqrt T) := by
        rw [abs_div, abs_neg, abs_of_pos (by linarith : (0:ℝ) < 2 * Real.sqrt T),
          abs_of_nonneg (mul_nonneg (mul_nonneg hS.le (phi_nonneg _)) hsig.le)]
        apply (div_le_div_iff_of_pos_right (by linarith : (0:ℝ) < 2 * Real.sqrt T)).mpr
        nlinarith [phi_le_one (d1 S K T r sigma), phi_nonneg (d1 S K T r sigma),
          mul_pos hS hsig]
      have hsecond : |r * K * Real.exp (-r * T) * Phi (-(d2 S K T r sigma))|
          ≤ |r| * K * Real.exp (-r * T) := by
        rw [show r * K * Real.exp (-r * T) * Phi (-(d2 S K T r sigma))
            = r * (K * Real.exp (-r * T) * Phi (-(d2 S K T r sigma))) by ring, abs_mul]
        rw [show |r| * K * Real.exp (-r * T) = |r| * (K * Real.exp (-r * T)) by ring]
        exact mul_le_mul_of_nonneg_left (abs_mul_Phi_le hKe.le _) (abs_nonneg r)
      calc |(-(S * phi (d1 S K T r sigma) * sigma)) / (2 * Real.sqrt T)
            + r * K * Real.exp (-r * T) * Phi (-(d2 S K T r sigma))|
          ≤ |(-(S * phi (d1 S K T r sigma) * sigma)) / (2 * Real.sqrt T)|
            + |r * K * Real.exp (-r * T) * Phi (-(d2 S K T r sigma))| := abs_add _ _
        _ ≤ S * sigma / (2 * Real.sqrt T) + |r| * K * Real.exp (-r * T) :=
            add_le_add hfirst hsecond
  · rw [call_rho_val]
    split_ifs with h
    · rw [abs_zero]
      exact mul_nonneg (mul_nonneg hK.le hT.le) he.le
    · exact abs_mul_Phi_le (by positivity) _
  · rw [put_rho_val]
    split_ifs with h
    · rw [abs_zero]
      exact mul_nonneg (mul_nonneg hK.le hT.le) he.le
    · rw [show -K * T * Real.exp (-r * T) * Phi (-(d2 S K T r sigma))
          = -(K * T * Real.exp (-r * T) * Phi (-(d2 S K T r sigma))) by ring, abs_neg]
      exact abs_mul_Phi_le (by positivity) _
  · rw [gamma_val]
    have hd : 0 < S * sigma * Real.sqrt T := mul_pos (mul_pos hS hsig) hsq
    split_ifs with h
    · rw [abs_zero]
      exact le_of_lt (by positivity)
    · rw [abs_of_nonneg (div_nonneg (phi_nonneg _) hd.le)]
      exact (div_le_div_iff_of_pos_right hd).mpr (phi_le_one _)
  · rw [vega_val]
    split_ifs with h
    · rw [abs_zero]
      exact mul_nonneg hS.le hsq.le
    · rw [abs_of_nonneg (mul_nonneg (mul_nonneg hS.le (phi_nonneg _)) hsq.le)]
      nlinarith [phi_le_one (d1 S K T r sigma), phi_nonneg (d1 S K T r sigma),
        mul_pos hS hsq]

/-- Witness for C9 at S = 2, K = 1, T = 1, r = 1, sigma = 1. -/
theorem no_nonfinite_leak_witness :
    call_price 2 1 1 1 1 = Except.ok (call_price_val 2 1 1 1 1) ∧
    |call_price_val 2 1 1 1 1| ≤ 2 + 1 + 1 * Real.exp (-1 * 1) := by
  have h := no_nonfinite_leak 2 1 1 1 1 (by norm_num) (by norm_num) (by norm_num)
    (by norm_num)
  exact ⟨h.1, h.2.2.2.2.2.2.2.2.2.2.1⟩

/-- C10: call_delta minus put_delta is exactly 1 whenever T is above the
1e-10 cutoff (whatever branch d1 takes), and at or below the cutoff the
difference is 1 when S differs from K and 0 when S equals K. -/
theorem delta_parity (S K T r sigma : ℝ) (hS : 0 < S) (hK : 0 < K) (hT0 : 0 < T)
    (hsig : 0 < sigma) :
    call_delta S K T r sigma = Except.ok (call_delta_val S K T r sigma) ∧
    put_delta S K T r sigma = Except.ok (put_delta_val S K T r sigma) ∧
    (1e-10 < T →
      call_delta_val S K T r sigma - put_delta_val S K T r sigma = 1) ∧
    (T ≤ 1e-10 →
      (S ≠ K → call_delta_val S K T r sigma - put_delta_val S K T r sigma = 1) ∧
      (S = K → call_delta_val S K T r sigma - put_delta_val S K T r sigma = 0)) := by
  have hchk := check_inputs_ok (r := r) hS hK hT0 hsig
  refine ⟨by rw [call_delta, hchk, run_ok], by rw [put_delta, hchk, run_ok], ?_, ?_⟩
  · intro hT
    have h' : ¬ T ≤ 1e-10 := not_le.mpr hT
    rw [call_delta_val, put_delta_val, if_neg h', if_neg h']
    ring
  · intro hT
    rw [call_delta_val, put_delta_val, if_pos hT, if_pos hT]
    constructor
    · intro hne
      rcases lt_or_gt_of_ne hne with h | h
      · rw [if_neg (not_lt.mpr (le_of_lt h)), if_pos h]
        norm_num
      · rw [if_pos h, if_neg (not_lt.mpr (le_of_lt h))]
        norm_num
    · intro heq
      rw [if_neg (by rw [heq]; exact lt_irrefl K), if_neg (by rw [heq]; exact lt_irrefl K)]
      norm_num

/-- Witness for C10 at S = 2, K = 1, T = 1, r = 1, sigma = 1. -/
theorem delta_parity_witness :
    call_delta_val 2 1 1 1 1 - put_delta_val 2 1 1 1 1 = 1 :=
  (delta_parity 2 1 1 1 1 (by norm_num) (by norm_num) (by norm_num)
    (by norm_num)).2.2.1 (by norm_num)

end BlackScholes
